import Mathlib

/-!
Verification of the browser-side Plan dialog controller
(`apis_v1/static/js/PlanDialog.js`).

The JavaScript is shallowly embedded: strings are modelled as `String`
(with `List Char` for character-level routines), jQuery/DOM effects are
made explicit (`UIState` for tip text and error-class marks, a list of
issued network payloads), and truthiness/short-circuit evaluation of
`&&` is modelled explicitly by `andThenCheck`.
-/

set_option autoImplicit false

namespace PlanDialog

/-! ## Currency normalizer: `dollarsToCents`

JS source (`dollarsToCents`): converts the argument to a string; empty
string maps to `''`; if the string contains `'.'` it is split on `'.'`,
`dollars = money[0]` (the characters before the first dot) and
`cents = money[1]` (the characters between the first dot and the next
dot or the end), and the result is `dollars` followed by `cents`
truncated to 2 digits / padded with trailing `'0'`; otherwise the result
is the input followed by `"00"`. -/

/-- `money[0]` of the JS `split('.')`: characters before the first dot. -/
def splitDollars (s : List Char) : List Char :=
  s.takeWhile (fun c => c ≠ '.')

/-- `money[1]` of the JS `split('.')`: characters strictly between the
first dot and the following dot (or the end of the string). -/
def splitCents (s : List Char) : List Char :=
  ((s.dropWhile (fun c => c ≠ '.')).tail).takeWhile (fun c => c ≠ '.')

/-- Character-level embedding of the JS `dollarsToCents`.  The final
`cost + '00'` of the JS is reached both on the (unreachable) fall-through
of the dot branch and when the string has no dot. -/
def dollarsToCentsL (cost : List Char) : List Char :=
  if cost.length = 0 then
    []
  else if '.' ∈ cost then
    let dollars := splitDollars cost
    let cents := splitCents cost
    if cents.length > 2 then dollars ++ cents.take 2
    else if cents.length = 0 then dollars ++ ['0', '0']
    else if cents.length = 1 then dollars ++ cents ++ ['0']
    else if cents.length = 2 then dollars ++ cents
    else cost ++ ['0', '0']
  else cost ++ ['0', '0']

/-- `dollarsToCents` on `String`s, as called by `saveNewPlan`. -/
def dollarsToCents (cost : String) : String :=
  String.mk (dollarsToCentsL cost.data)

/-- The spec-side adjustment of a fractional part to exactly two digits:
truncated to the first two digits when longer, padded with trailing
zeros when shorter. -/
def adjustTwo (f : List Char) : List Char :=
  if 2 ≤ f.length then f.take 2 else f ++ List.replicate (2 - f.length) '0'

/-! ## Row deduplicator: `rollupOlderVersions` change handler

JS source: reads `checked`, walks `table.rows` from index 1, builds
`key = coupon + "~" + type` from cells 1 and 2, and when `checked` hides
every row whose key was seen before (leaving first occurrences
untouched), else sets every row's display to `""`. -/

/-- A rendered table row: the two key cells and the CSS `display`
property (the only things the handler reads or writes). -/
structure Row where
  coupon : String
  rowType : String
  display : String
  deriving DecidableEq, Repr

/-- Fallback row for index-based access in statements. -/
def defaultRow : Row := ⟨"", "", ""⟩

/-- `coupon + "~" + type`, the dedup key built by the handler. -/
def key (r : Row) : String := r.coupon ++ "~" ++ r.rowType

/-- `$(row).css("display", "none")`. -/
def hideRow (r : Row) : Row := { r with display := "none" }

/-- `$(row).css("display", "")`. -/
def showRow (r : Row) : Row := { r with display := "" }

/-- A row is visible unless its display property is `"none"`. -/
def visible (r : Row) : Bool := r.display ≠ "none"

/-- The loop body of the change handler over the data rows, threading the
`hashmap` of seen keys.  When `checked`, a row whose key is already in
the map is hidden and a first occurrence is recorded (its display left
untouched); when unchecked every row's display is set to `""`. -/
def rollupAux (checked : Bool) (seen : List String) : List Row → List Row
  | [] => []
  | r :: rs =>
    if checked then
      if key r ∈ seen then hideRow r :: rollupAux checked seen rs
      else r :: rollupAux checked (key r :: seen) rs
    else showRow r :: rollupAux checked seen rs

/-- The whole handler: the loop starts at row index 1, so the header row
(index 0) is passed through untouched. -/
def rollupOlderVersions (checked : Bool) : List Row → List Row
  | [] => []
  | header :: dataRows => header :: rollupAux checked [] dataRows

/-! ## Validator and submission pass: `checkLength`, `checkNumber`,
`checkRegexp`, `updateTips`, `saveNewPlan` -/

/-- A JavaScript value as far as `Number.isNaN` is concerned: the field
values handled by the dialog are strings; `NaN` only arises as a number. -/
inductive JSValue where
  | str : String → JSValue
  | nanNumber : JSValue
  | finiteNumber : Int → JSValue
  deriving DecidableEq

/-- `Number.isNaN` (ES2015): returns `true` iff the argument is the
number value NaN; unlike the global `isNaN` it performs no numeric
coercion, so it is `false` on every string. -/
def numberIsNaN : JSValue → Bool
  | JSValue.nanNumber => true
  | _ => false

/-- The DOM side effects of a validation pass: the current `.validateTips`
text (`none` when `updateTips` has not run this pass) and the fields
carrying the `ui-state-error` class. -/
structure UIState where
  tip : Option String
  errorFields : List String
  deriving DecidableEq, Repr

/-- `updateTips(t)`: sets the tips text (the highlight animation is not
modelled). -/
def updateTips (t : String) (ui : UIState) : UIState :=
  { ui with tip := some t }

/-- Marks a field with the `ui-state-error` class. -/
def addError (field : String) (ui : UIState) : UIState :=
  { ui with errorFields := field :: ui.errorFields }

/-- `checkLength(o, n, min, max)`: invalid iff the value's length is
above `max` or below `min`; on failure marks the field and sets the tip. -/
def checkLength (value : String) (n : String) (min max : Nat) (field : String)
    (ui : UIState) : Bool × UIState :=
  if value.length > max ∨ value.length < min then
    (false, updateTips
      ("Length of " ++ n ++ " must be between " ++ toString min ++ " and " ++
        toString max ++ ".")
      (addError field ui))
  else (true, ui)

/-- `checkNumber(o, n)`: invalid iff `Number.isNaN(o.val())`; the field
value delivered by jQuery's `.val()` is a string. -/
def checkNumber (value : String) (n : String) (field : String)
    (ui : UIState) : Bool × UIState :=
  if numberIsNaN (JSValue.str value) then
    (false, updateTips (n ++ " must be a number.") (addError field ui))
  else (true, ui)

/-- `[0-9]{2}\/[0-9]{2}\/[0-9]{4}`: one ten-character date block. -/
def isDateBlock (s : List Char) : Bool :=
  match s with
  | [a, b, c, d, e, f, g, h, i, j] =>
    a.isDigit && b.isDigit && c = '/' && d.isDigit && e.isDigit && f = '/' &&
      g.isDigit && h.isDigit && i.isDigit && j.isDigit
  | _ => false

/-- The test of the anchored pattern `^([0-9]{2}\/[0-9]{2}\/[0-9]{4})+$`
from `saveNewPlan`: one or more ten-character date blocks covering the
whole string.  Every repetition of the group consumes exactly ten
characters, so the regex match is equivalent to this chunk-wise scan. -/
def matchesDatePattn : List Char → Bool
  | a :: b :: c :: d :: e :: f :: g :: h :: i :: j :: rest =>
    isDateBlock [a, b, c, d, e, f, g, h, i, j] &&
      (rest.isEmpty || matchesDatePattn rest)
  | _ => false

/-- `checkRegexp(o, regexp, n)`: invalid iff the pattern test fails; on
failure marks the field and shows `n` as the tip. -/
def checkRegexp (value : String) (pattn : List Char → Bool) (n : String)
    (field : String) (ui : UIState) : Bool × UIState :=
  if pattn value.data then (true, ui)
  else (false, updateTips n (addError field ui))

/-- `valid = valid && check(...)`: JS `&&` short-circuits, so the check
(and its DOM side effects) only runs while `valid` is still true. -/
def andThenCheck (valid : Bool) (check : UIState → Bool × UIState)
    (ui : UIState) : Bool × UIState :=
  if valid then check ui else (false, ui)

/-- The form fields read by `saveNewPlan` (via `.val()`). -/
structure FormState where
  couponCode : String
  planTypeEnum : String
  hiddenPlanComment : String
  couponAppliedMessage : String
  listPriceMonthlyCredit : String
  discountedPriceMonthlyCredit : String
  featuresProvidedBitmap : String
  couponExpiresDate : String
  deriving DecidableEq, Repr

/-- The `newPlanData` object sent to `/apis/v1/createNewPlan`. -/
structure Payload where
  couponCode : String
  planTypeEnum : String
  couponAppliedMessage : String
  hiddenPlanComment : String
  listPriceMonthlyCredit : String
  discountedPriceMonthlyCredit : String
  featuresProvidedBitmap : String
  couponExpiresDate : String
  deriving DecidableEq, Repr

/-- Result of one `saveNewPlan` call: its return value, the DOM state it
leaves behind, and the network requests it issued. -/
structure SaveResult where
  valid : Bool
  ui : UIState
  networkCalls : List Payload
  deriving DecidableEq, Repr

/-- Embedding of `saveNewPlan`.  `momentFmt` stands for the external
moment.js conversion `moment(val, 'MM/DD/YYYY HH:mm').format()`; the
function starts by clearing all `ui-state-error` classes, runs the four
checks chained through short-circuiting `&&`, and on success issues one
`$.getJSON` create request with the normalized prices. -/
def saveNewPlan (momentFmt : String → String) (fs : FormState) : SaveResult :=
  let ui0 : UIState := { tip := none, errorFields := [] }
  let s1 := andThenCheck true
    (checkLength fs.couponCode "Coupon Code" 3 128 "coupon_code") ui0
  let s2 := andThenCheck s1.1
    (checkNumber fs.listPriceMonthlyCredit "List Price Monthly"
      "list_price_monthly_credit") s1.2
  let s3 := andThenCheck s2.1
    (checkNumber fs.discountedPriceMonthlyCredit "Discounted Price Monthly"
      "discounted_price_monthly_credit") s2.2
  let s4e :=
    if fs.couponExpiresDate.length ≠ 0 then
      let s4 := andThenCheck s3.1
        (checkRegexp fs.couponExpiresDate matchesDatePattn
          "Expiration date must use this format: 12/25/2022"
          "coupon_expires_date") s3.2
      if s4.1 then (s4, momentFmt fs.couponExpiresDate) else (s4, "")
    else (s3, "")
  let s4 := s4e.1
  let expires := s4e.2
  if s4.1 then
    { valid := true
      ui := s4.2
      networkCalls := [{
        couponCode := fs.couponCode
        planTypeEnum := fs.planTypeEnum
        couponAppliedMessage := fs.couponAppliedMessage
        hiddenPlanComment := fs.hiddenPlanComment
        listPriceMonthlyCredit := dollarsToCents fs.listPriceMonthlyCredit
        discountedPriceMonthlyCredit := dollarsToCents fs.discountedPriceMonthlyCredit
        featuresProvidedBitmap := fs.featuresProvidedBitmap
        couponExpiresDate := expires }] }
  else { valid := false, ui := s4.2, networkCalls := [] }

/-! ## URL helper: `getLimitFromUrl` -/

/-- `pat.isPrefixOf s` at the character level, written out directly. -/
def prefixAt : List Char → List Char → Bool
  | [], _ => true
  | _ :: _, [] => false
  | p :: ps, c :: cs => p = c && prefixAt ps cs

/-- JS `String.prototype.includes(pat)`: some suffix of `s` starts with
`pat`. -/
def containsSubstr (pat : List Char) : List Char → Bool
  | [] => pat.isEmpty
  | c :: rest => prefixAt pat (c :: rest) || containsSubstr pat rest

/-- JS `String.prototype.lastIndexOf(c)`: index of the last occurrence
of `c`, `-1` when absent. -/
def jsLastIndexOf (c : Char) : List Char → Int
  | [] => -1
  | a :: rest =>
    let r := jsLastIndexOf c rest
    if r ≥ 0 then r + 1
    else if a = c then 0
    else -1

/-- JS `String.prototype.slice(i)` for the non-negative indices arising
here (`lastIndexOf + 1 ≥ 0` always). -/
def jsSliceFrom (i : Int) (s : List Char) : List Char :=
  s.drop i.toNat

/-- `getLimitFromUrl` returns the number `0` on one branch and a string
on the other. -/
inductive LimitResult where
  | num : Nat → LimitResult
  | str : String → LimitResult
  deriving DecidableEq, Repr

/-- Embedding of `getLimitFromUrl`: when the URL contains `"?limit="`,
return `url.slice(url.lastIndexOf('=') + 1)`; otherwise return `0`. -/
def getLimitFromUrl (url : String) : LimitResult :=
  if containsSubstr "?limit=".data url.data then
    LimitResult.str (String.mk (jsSliceFrom (jsLastIndexOf '=' url.data + 1) url.data))
  else LimitResult.num 0

/-! ## Helper lemmas -/

theorem not_dot_mem_splitDollars (s : List Char) : '.' ∉ splitDollars s := by
  intro hmem
  have := List.mem_takeWhile_imp hmem
  simp at this

theorem not_dot_mem_splitCents (s : List Char) : '.' ∉ splitCents s := by
  intro hmem
  have := List.mem_takeWhile_imp hmem
  simp at this

theorem dollarsToCentsL_dot (s : List Char) (h : '.' ∈ s) :
    dollarsToCentsL s = splitDollars s ++ adjustTwo (splitCents s) := by
  have hne : ¬s.length = 0 := by
    intro h0
    rw [List.length_eq_zero] at h0
    subst h0
    simp at h
  unfold dollarsToCentsL
  rw [if_neg hne, if_pos h]
  set f := splitCents s with hf
  by_cases h2 : f.length > 2
  · rw [if_pos h2]
    unfold adjustTwo
    rw [if_pos (by omega)]
  · rw [if_neg h2]
    by_cases h0 : f.length = 0
    · rw [if_pos h0]
      rw [List.length_eq_zero] at h0
      rw [h0]
      unfold adjustTwo
      simp
    · rw [if_neg h0]
      by_cases h1 : f.length = 1
      · rw [if_pos h1]
        rw [List.length_eq_one] at h1
        obtain ⟨a, ha⟩ := h1
        rw [ha]
        unfold adjustTwo
        simp
      · rw [if_neg h1]
        have h2' : f.length = 2 := by omega
        rw [if_pos h2']
        rw [List.length_eq_two] at h2'
        obtain ⟨a, b, hab⟩ := h2'
        rw [hab]
        unfold adjustTwo
        simp

theorem dollarsToCentsL_no_dot (s : List Char) (hd : '.' ∉ s) (hne : s ≠ []) :
    dollarsToCentsL s = s ++ ['0', '0'] := by
  unfold dollarsToCentsL
  rw [if_neg (by simpa using fun h => hne (List.length_eq_zero.mp h)), if_neg hd]

theorem dot_not_mem_dollarsToCentsL (s : List Char) : '.' ∉ dollarsToCentsL s := by
  by_cases hlen : s.length = 0
  · unfold dollarsToCentsL
    rw [if_pos hlen]
    simp
  · by_cases hdot : '.' ∈ s
    · rw [dollarsToCentsL_dot s hdot]
      intro hmem
      rcases List.mem_append.mp hmem with hmem | hmem
      · exact not_dot_mem_splitDollars s hmem
      · unfold adjustTwo at hmem
        by_cases h2 : 2 ≤ (splitCents s).length
        · rw [if_pos h2] at hmem
          exact not_dot_mem_splitCents s (List.take_subset _ _ hmem)
        · rw [if_neg h2] at hmem
          rcases List.mem_append.mp hmem with hmem | hmem
          · exact not_dot_mem_splitCents s hmem
          · have := List.eq_of_mem_replicate hmem
            simp at this
    · rw [dollarsToCentsL_no_dot s hdot (fun h => hlen (by rw [h]; rfl))]
      intro hmem
      rcases List.mem_append.mp hmem with hmem | hmem
      · exact hdot hmem
      · simp at hmem

/-- C1: `dollarsToCents` maps the empty string to the empty string; a
string containing a decimal point to its integer part followed by its
fractional part adjusted to exactly two digits (truncated when longer,
padded with trailing zeros when shorter, never rounded); a dot-free
string to itself followed by `"00"`; the result never contains a
decimal point, and `toCents("12.5") = "1250"`,
`toCents("12.345") = "1234"`, `toCents("12") = "1200"`,
`toCents("") = ""`. -/
theorem dollarsToCents_spec (s : List Char) :
    (s = [] → dollarsToCentsL s = []) ∧
    ('.' ∈ s → dollarsToCentsL s = splitDollars s ++ adjustTwo (splitCents s)) ∧
    ('.' ∉ s → s ≠ [] → dollarsToCentsL s = s ++ ['0', '0']) ∧
    '.' ∉ dollarsToCentsL s ∧
    dollarsToCents "12.5" = "1250" ∧
    dollarsToCents "12.345" = "1234" ∧
    dollarsToCents "12" = "1200" ∧
    dollarsToCents "" = "" := by
  refine ⟨?_, dollarsToCentsL_dot s, dollarsToCentsL_no_dot s,
    dot_not_mem_dollarsToCentsL s, by decide, by decide, by decide, by decide⟩
  intro h
  subst h
  rfl

/-- Closed instances of `dollarsToCents_spec`: the decimal branch at
`"12.5"` and the whole-dollars branch at `"34"`. -/
theorem dollarsToCents_spec_witness :
    dollarsToCentsL "12.5".data =
      splitDollars "12.5".data ++ adjustTwo (splitCents "12.5".data) ∧
    dollarsToCentsL "34".data = "34".data ++ ['0', '0'] :=
  ⟨(dollarsToCents_spec "12.5".data).2.1 (by decide),
   (dollarsToCents_spec "34".data).2.2.1 (by decide) (by decide)⟩

theorem getD_mem {α : Type} (l : List α) (d : α) (i : Nat) (hi : i < l.length) :
    l.getD i d ∈ l := by
  induction l generalizing i with
  | nil => simp at hi
  | cons a l ih =>
    cases i with
    | zero => simp
    | succ n =>
      rw [List.getD_cons_succ]
      exact List.mem_cons_of_mem _ (ih n (by simpa using hi))

theorem rollupAux_length (checked : Bool) (seen : List String) (rows : List Row) :
    (rollupAux checked seen rows).length = rows.length := by
  induction rows generalizing seen with
  | nil => rfl
  | cons r rs ih =>
    cases checked with
    | false => simp [rollupAux, ih]
    | true =>
      by_cases hk : key r ∈ seen
      · simp [rollupAux, hk, ih]
      · simp [rollupAux, hk, ih]

theorem key_hideRow (r : Row) : key (hideRow r) = key r := rfl

theorem visible_hideRow (r : Row) : visible (hideRow r) = false := by
  simp [visible, hideRow]

/-- Characterization of the collapsing pass: the row at index `i` is
hidden exactly when its key is already in `seen` or occurs among the
keys of the rows before it, and is otherwise left untouched. -/
theorem rollupAux_true_getD (seen : List String) (rows : List Row) (i : Nat)
    (hi : i < rows.length) :
    (rollupAux true seen rows).getD i defaultRow =
      (if key (rows.getD i defaultRow) ∈ seen ++ (rows.take i).map key
       then hideRow (rows.getD i defaultRow)
       else rows.getD i defaultRow) := by
  induction rows generalizing seen i with
  | nil => simp at hi
  | cons r rs ih =>
    cases i with
    | zero =>
      by_cases hk : key r ∈ seen
      · simp [rollupAux, hk]
      · simp [rollupAux, hk]
    | succ n =>
      have hn : n < rs.length := by
        simpa [List.length_cons] using hi
      by_cases hk : key r ∈ seen
      · have hstep : rollupAux true seen (r :: rs) =
            hideRow r :: rollupAux true seen rs := by
          simp [rollupAux, hk]
        rw [hstep, List.getD_cons_succ, List.getD_cons_succ, List.take_succ_cons,
          List.map_cons, ih seen n hn]
        by_cases h2 : key (rs.getD n defaultRow) ∈ seen ++ (rs.take n).map key
        · rw [if_pos h2, if_pos ?_]
          simp only [List.mem_append, List.mem_cons] at h2 ⊢
          tauto
        · rw [if_neg h2, if_neg ?_]
          intro hcon
          apply h2
          simp only [List.mem_append, List.mem_cons] at hcon ⊢
          rcases hcon with hcon | hcon | hcon
          · exact Or.inl hcon
          · exact Or.inl (hcon ▸ hk)
          · exact Or.inr hcon
      · have hstep : rollupAux true seen (r :: rs) =
            r :: rollupAux true (key r :: seen) rs := by
          simp [rollupAux, hk]
        rw [hstep, List.getD_cons_succ, List.getD_cons_succ, List.take_succ_cons,
          List.map_cons, ih (key r :: seen) n hn]
        by_cases h2 : key (rs.getD n defaultRow) ∈ (key r :: seen) ++ (rs.take n).map key
        · rw [if_pos h2, if_pos ?_]
          simp only [List.mem_append, List.mem_cons] at h2 ⊢
          tauto
        · rw [if_neg h2, if_neg ?_]
          simp only [List.mem_append, List.mem_cons] at h2 ⊢
          tauto

/-- The number of rows a collapsing pass leaves visible is the number of
distinct keys not already recorded in `seen`, provided the rows were all
rendered visible. -/
theorem rollupAux_true_countP (seen : List String) (rows : List Row)
    (h : ∀ r ∈ rows, r.display = "") :
    (rollupAux true seen rows).countP visible =
      ((rows.map key).toFinset \ seen.toFinset).card := by
  induction rows generalizing seen with
  | nil => simp [rollupAux]
  | cons r rs ih =>
    have hr : r.display = "" := h r (List.mem_cons_self r rs)
    have hrs : ∀ x ∈ rs, x.display = "" := fun x hx => h x (List.mem_cons_of_mem _ hx)
    by_cases hk : key r ∈ seen
    · have hstep : rollupAux true seen (r :: rs) =
          hideRow r :: rollupAux true seen rs := by
        simp [rollupAux, hk]
      rw [hstep, List.countP_cons, visible_hideRow, ih seen hrs]
      simp only [List.map_cons, List.toFinset_cons]
      rw [Finset.insert_sdiff_of_mem _ (List.mem_toFinset.mpr hk)]
      simp
    · have hstep : rollupAux true seen (r :: rs) =
          r :: rollupAux true (key r :: seen) rs := by
        simp [rollupAux, hk]
      have hv : visible r = true := by
        simp [visible, hr]
      rw [hstep, List.countP_cons, hv, ih (key r :: seen) hrs]
      simp only [List.map_cons, List.toFinset_cons]
      rw [Finset.sdiff_insert, Finset.insert_sdiff_of_not_mem _
        (fun hmem => hk (List.mem_toFinset.mp hmem))]
      by_cases ha : key r ∈ (rs.map key).toFinset \ seen.toFinset
      · rw [Finset.insert_eq_of_mem ha, ← Finset.card_erase_add_one ha]
        simp
      · rw [Finset.erase_eq_of_not_mem ha, Finset.card_insert_of_not_mem ha]
        simp

/-- C2: with the collapse flag on, the deduplicator walks the data rows
in order; the number of rows left visible equals the number of distinct
`(coupon, type)` keys, each row keeps its key, and the row at index `i`
is visible exactly when no earlier row shares its key — the visible row
for each key is its first occurrence. -/
theorem rollup_collapse_keeps_first (rows : List Row)
    (h : ∀ r ∈ rows, r.display = "") :
    (rollupAux true [] rows).countP visible = (rows.map key).toFinset.card ∧
    (∀ i, i < rows.length →
      key ((rollupAux true [] rows).getD i defaultRow) =
        key (rows.getD i defaultRow) ∧
      (visible ((rollupAux true [] rows).getD i defaultRow) = true ↔
        key (rows.getD i defaultRow) ∉ (rows.take i).map key)) := by
  constructor
  · rw [rollupAux_true_countP [] rows h]
    simp
  · intro i hi
    rw [rollupAux_true_getD [] rows i hi]
    have hmem : rows.getD i defaultRow ∈ rows := getD_mem rows defaultRow i hi
    have hvis : visible (rows.getD i defaultRow) = true := by
      unfold visible
      rw [h _ hmem]
      decide
    by_cases hc : key (rows.getD i defaultRow) ∈ (rows.take i).map key
    · rw [if_pos (by simpa using hc), key_hideRow, visible_hideRow]
      refine ⟨rfl, ?_, ?_⟩
      · intro hf
        exact (Bool.false_ne_true hf).elim
      · intro hnot
        exact absurd hc hnot
    · rw [if_neg (by simpa using hc), hvis]
      exact ⟨rfl, fun _ => hc, fun _ => rfl⟩

/-- Closed instance of `rollup_collapse_keeps_first` on three rows with
two distinct keys. -/
theorem rollup_collapse_keeps_first_witness :
    (rollupAux true [] [⟨"A", "1", ""⟩, ⟨"A", "1", ""⟩, ⟨"B", "1", ""⟩]).countP
      visible =
      ([⟨"A", "1", ""⟩, ⟨"A", "1", ""⟩, (⟨"B", "1", ""⟩ : Row)].map key).toFinset.card :=
  (rollup_collapse_keeps_first
    [⟨"A", "1", ""⟩, ⟨"A", "1", ""⟩, ⟨"B", "1", ""⟩] (by decide)).1

theorem rollupAux_false (seen : List String) (rows : List Row) :
    rollupAux false seen rows = rows.map showRow := by
  induction rows generalizing seen with
  | nil => rfl
  | cons r rs ih => simp [rollupAux, ih]

theorem showRow_hideRow (r : Row) : showRow (hideRow r) = showRow r := rfl

theorem showRow_showRow (r : Row) : showRow (showRow r) = showRow r := rfl

theorem map_showRow_rollupAux (checked : Bool) (seen : List String)
    (rows : List Row) :
    (rollupAux checked seen rows).map showRow = rows.map showRow := by
  induction rows generalizing seen with
  | nil => rfl
  | cons r rs ih =>
    cases checked with
    | false => simp [rollupAux, ih, showRow_showRow]
    | true =>
      by_cases hk : key r ∈ seen
      · simp [rollupAux, hk, ih, showRow_hideRow]
      · simp [rollupAux, hk, ih]

theorem map_showRow_of_visible (rows : List Row)
    (h : ∀ r ∈ rows, r.display = "") : rows.map showRow = rows := by
  induction rows with
  | nil => rfl
  | cons r rs ih =>
    have hr : r.display = "" := h r (List.mem_cons_self r rs)
    have hrs : ∀ x ∈ rs, x.display = "" := fun x hx => h x (List.mem_cons_of_mem _ hx)
    have hshow : showRow r = r := by
      cases r
      simp only [showRow] at hr ⊢
      simp_all
    simp [hshow, ih hrs]

theorem rollupAux_data (checked : Bool) (seen : List String) (rows : List Row) :
    (rollupAux checked seen rows).map (fun r => (r.coupon, r.rowType)) =
      rows.map (fun r => (r.coupon, r.rowType)) := by
  induction rows generalizing seen with
  | nil => rfl
  | cons r rs ih =>
    cases checked with
    | false => simp [rollupAux, ih, showRow]
    | true =>
      by_cases hk : key r ∈ seen
      · simp [rollupAux, hk, ih, hideRow]
      · simp [rollupAux, hk, ih]

/-- C6: with the collapse flag off the deduplicator sets every row
visible unconditionally; collapse followed by uncollapse restores the
row list exactly; collapse, uncollapse, collapse again reproduces the
first collapse; and neither pass ever changes a row's cell contents. -/
theorem rollup_toggle_spec (rows : List Row)
    (h : ∀ r ∈ rows, r.display = "") :
    rollupAux false [] rows = rows.map showRow ∧
    (∀ r ∈ rollupAux false [] rows, visible r = true) ∧
    rollupAux false [] (rollupAux true [] rows) = rows ∧
    rollupAux true [] (rollupAux false [] (rollupAux true [] rows)) =
      rollupAux true [] rows ∧
    (∀ checked : Bool,
      (rollupAux checked [] rows).map (fun r => (r.coupon, r.rowType)) =
        rows.map (fun r => (r.coupon, r.rowType))) := by
  have hrestore : rollupAux false [] (rollupAux true [] rows) = rows := by
    rw [rollupAux_false, map_showRow_rollupAux, map_showRow_of_visible rows h]
  refine ⟨rollupAux_false [] rows, ?_, hrestore, by rw [hrestore],
    fun checked => rollupAux_data checked [] rows⟩
  intro r hr
  rw [rollupAux_false [] rows] at hr
  obtain ⟨x, _, rfl⟩ := List.mem_map.mp hr
  rfl

/-- Closed instance of `rollup_toggle_spec`: collapsing then
uncollapsing three concrete rows restores them. -/
theorem rollup_toggle_spec_witness :
    rollupAux false []
        (rollupAux true [] [⟨"A", "1", ""⟩, ⟨"A", "1", ""⟩, ⟨"B", "1", ""⟩]) =
      [⟨"A", "1", ""⟩, ⟨"A", "1", ""⟩, ⟨"B", "1", ""⟩] :=
  (rollup_toggle_spec [⟨"A", "1", ""⟩, ⟨"A", "1", ""⟩, ⟨"B", "1", ""⟩]
    (by decide)).2.2.1

/-- C10: the change handler never touches the header row: row 0 is
passed through unchanged (for either flag value) and the loop acts only
on the rows from index 1 on. -/
theorem rollup_header_untouched (checked : Bool) (rows : List Row) :
    (rollupOlderVersions checked rows).take 1 = rows.take 1 ∧
    (rollupOlderVersions checked rows).drop 1 =
      rollupAux checked [] (rows.drop 1) := by
  cases rows with
  | nil => exact ⟨rfl, rfl⟩
  | cons header dataRows => exact ⟨rfl, rfl⟩

/-! ## Validation-pass theorems -/

/-- C3 (code bug): `Number.isNaN` is applied to the field's string value
without any numeric cast, so it is `false` for every string and
`checkNumber` accepts the non-numeric value `"abc"` untouched — although
casting `"abc"` to a number yields the not-a-number sentinel and the
check's own message promises `"must be a number"`. -/
theorem checkNumber_accepts_abc :
    checkNumber "abc" "List Price Monthly" "list_price_monthly_credit"
        { tip := none, errorFields := [] } =
      (true, { tip := none, errorFields := [] }) ∧
    numberIsNaN (JSValue.str "abc") = false ∧
    numberIsNaN JSValue.nanNumber = true := ⟨rfl, rfl, rfl⟩

/-- The form submitted in the C4 counterexample: coupon code of length 2
(fails `checkLength`) and a malformed non-empty expiration date (would
fail `checkRegexp`). -/
def fsTwoFailures : FormState :=
  { couponCode := "ab"
    planTypeEnum := "1"
    hiddenPlanComment := ""
    couponAppliedMessage := ""
    listPriceMonthlyCredit := "10"
    discountedPriceMonthlyCredit := "5"
    featuresProvidedBitmap := "0"
    couponExpiresDate := "bad" }

/-- C4 counterexample: on a form where both the coupon-length check and
the expiration-date check fail, the tip displayed at the end of the pass
is the message of the FIRST failing check (coupon length), not of the
last one (date format), and only the coupon field is marked — the later
checks never ran. -/
theorem saveNewPlan_lastTip_counterexample :
    fsTwoFailures.couponCode.length < 3 ∧
    fsTwoFailures.couponExpiresDate.length ≠ 0 ∧
    matchesDatePattn fsTwoFailures.couponExpiresDate.data = false ∧
    (saveNewPlan id fsTwoFailures).ui.tip =
      some "Length of Coupon Code must be between 3 and 128." ∧
    (saveNewPlan id fsTwoFailures).ui.tip ≠
      some "Expiration date must use this format: 12/25/2022" ∧
    (saveNewPlan id fsTwoFailures).ui.errorFields = ["coupon_code"] := by
  decide

/-- C4 amended: `valid = valid && check(...)` short-circuits, so once a
check fails no later check is evaluated; the tip displayed at the end of
the pass is that of the first failing check.  Concretely, whenever the
coupon-length check (the first one) fails, its message is the displayed
tip and its field the only one marked, whatever the other fields hold. -/
theorem saveNewPlan_first_failing_tip (momentFmt : String → String)
    (fs : FormState)
    (h : fs.couponCode.length < 3 ∨ 128 < fs.couponCode.length) :
    (saveNewPlan momentFmt fs).valid = false ∧
    (saveNewPlan momentFmt fs).ui.tip =
      some "Length of Coupon Code must be between 3 and 128." ∧
    (saveNewPlan momentFmt fs).ui.errorFields = ["coupon_code"] := by
  have hcond : fs.couponCode.length > 128 ∨ fs.couponCode.length < 3 := by omega
  by_cases hd : fs.couponExpiresDate.length ≠ 0
  · simp [saveNewPlan, andThenCheck, checkLength, checkNumber, checkRegexp,
      numberIsNaN, updateTips, addError, hcond, hd]
    rfl
  · simp [saveNewPlan, andThenCheck, checkLength, checkNumber, checkRegexp,
      numberIsNaN, updateTips, addError, hcond, hd]
    rfl

/-- Closed instance of `saveNewPlan_first_failing_tip` at the
two-failure form. -/
theorem saveNewPlan_first_failing_tip_witness :
    (saveNewPlan id fsTwoFailures).valid = false ∧
    (saveNewPlan id fsTwoFailures).ui.tip =
      some "Length of Coupon Code must be between 3 and 128." ∧
    (saveNewPlan id fsTwoFailures).ui.errorFields = ["coupon_code"] :=
  saveNewPlan_first_failing_tip id fsTwoFailures (Or.inl (by decide))

/-- A form valid in every field, whose expiration date is two
concatenated `MM/DD/YYYY` blocks — not of the exact ten-character
shape. -/
def fsDoubleDate : FormState :=
  { couponCode := "SAVE10"
    planTypeEnum := "1"
    hiddenPlanComment := ""
    couponAppliedMessage := ""
    listPriceMonthlyCredit := "19.99"
    discountedPriceMonthlyCredit := "9.5"
    featuresProvidedBitmap := "0"
    couponExpiresDate := "12/25/202212/25/2022" }

/-- C5 counterexample: the pattern
`^([0-9]{2}\/[0-9]{2}\/[0-9]{4})+$` has a `+` on the group, so the
twenty-character string `"12/25/202212/25/2022"` — non-empty and not of
the exact `MM/DD/YYYY` shape — passes the check and the pass proceeds to
build and send the payload, where the claim demands a validation
failure. -/
theorem saveNewPlan_dateShape_counterexample :
    fsDoubleDate.couponExpiresDate.length ≠ 0 ∧
    isDateBlock fsDoubleDate.couponExpiresDate.data = false ∧
    (saveNewPlan id fsDoubleDate).valid = true ∧
    (saveNewPlan id fsDoubleDate).networkCalls.length = 1 := by
  decide

theorem isDateBlock_matches (s : List Char) (hs : isDateBlock s = true) :
    matchesDatePattn s = true := by
  unfold isDateBlock at hs
  split at hs
  · rename_i a b c d e f g h i j
    simp [matchesDatePattn, isDateBlock, hs]
  · exact absurd hs (by simp)

/-- C5 amended: for a well-formed coupon code and a non-empty expiration
string, the pass accepts exactly the strings matching
`^([0-9]{2}\/[0-9]{2}\/[0-9]{4})+$` — one or MORE repetitions of the
two-digit/two-digit/four-digit block — converting the date and building
the payload on acceptance and failing validation otherwise; every exact
`MM/DD/YYYY` string is accepted, but so are longer repetitions. -/
theorem saveNewPlan_date_gate (momentFmt : String → String) (fs : FormState)
    (hc : 3 ≤ fs.couponCode.length ∧ fs.couponCode.length ≤ 128)
    (hd : fs.couponExpiresDate.length ≠ 0) :
    ((saveNewPlan momentFmt fs).valid = true ↔
      matchesDatePattn fs.couponExpiresDate.data = true) ∧
    (matchesDatePattn fs.couponExpiresDate.data = false →
      (saveNewPlan momentFmt fs).networkCalls = []) ∧
    (matchesDatePattn fs.couponExpiresDate.data = true →
      (saveNewPlan momentFmt fs).networkCalls ≠ []) ∧
    (∀ s : List Char, isDateBlock s = true → matchesDatePattn s = true) := by
  have hcond : ¬(fs.couponCode.length > 128 ∨ fs.couponCode.length < 3) := by
    omega
  by_cases hm : matchesDatePattn fs.couponExpiresDate.data = true
  · refine ⟨?_, ?_, ?_, isDateBlock_matches⟩ <;>
      simp [saveNewPlan, andThenCheck, checkLength, checkNumber, checkRegexp,
        numberIsNaN, updateTips, addError, hcond, hd, hm]
  · have hm' : matchesDatePattn fs.couponExpiresDate.data = false := by
      simpa using hm
    refine ⟨?_, ?_, ?_, isDateBlock_matches⟩ <;>
      simp [saveNewPlan, andThenCheck, checkLength, checkNumber, checkRegexp,
        numberIsNaN, updateTips, addError, hcond, hd, hm']

/-- Closed instance of `saveNewPlan_date_gate`: an exact `MM/DD/YYYY`
date is accepted. -/
theorem saveNewPlan_date_gate_witness :
    (saveNewPlan id
        { couponCode := "SAVE10"
          planTypeEnum := "1"
          hiddenPlanComment := ""
          couponAppliedMessage := ""
          listPriceMonthlyCredit := "19.99"
          discountedPriceMonthlyCredit := "9.5"
          featuresProvidedBitmap := "0"
          couponExpiresDate := "12/25/2022" }).valid = true :=
  ((saveNewPlan_date_gate id _ ⟨by decide, by decide⟩ (by decide)).1).mpr
    (by decide)

/-- The happy-path form of the C7 scenario. -/
def fsHappy : FormState :=
  { couponCode := "SAVE10"
    planTypeEnum := "1"
    hiddenPlanComment := ""
    couponAppliedMessage := ""
    listPriceMonthlyCredit := "19.99"
    discountedPriceMonthlyCredit := "9.5"
    featuresProvidedBitmap := "0"
    couponExpiresDate := "" }

/-- C7: submitting coupon `"SAVE10"`, list price `"19.99"`, discounted
price `"9.5"` and an empty expiration passes validation and issues
exactly one create request, whose payload carries prices `"1999"` and
`"950"` and the empty string for the expiration — for any behaviour of
the external date-formatting library, which is never consulted. -/
theorem saveNewPlan_happyPath (momentFmt : String → String) :
    (saveNewPlan momentFmt fsHappy).valid = true ∧
    (saveNewPlan momentFmt fsHappy).networkCalls.length = 1 ∧
    (saveNewPlan momentFmt fsHappy).networkCalls =
      [{ couponCode := "SAVE10"
         planTypeEnum := "1"
         couponAppliedMessage := ""
         hiddenPlanComment := ""
         listPriceMonthlyCredit := "1999"
         discountedPriceMonthlyCredit := "950"
         featuresProvidedBitmap := "0"
         couponExpiresDate := "" }] :=
  ⟨rfl, rfl, rfl⟩

/-- The C8 example form: a coupon code of length 2. -/
def fsShortCoupon : FormState :=
  { couponCode := "ab"
    planTypeEnum := "1"
    hiddenPlanComment := ""
    couponAppliedMessage := ""
    listPriceMonthlyCredit := "10"
    discountedPriceMonthlyCredit := "5"
    featuresProvidedBitmap := "0"
    couponExpiresDate := "" }

/-- C8: whenever a constrained-field check fails — the coupon length is
out of `[3, 128]`, or a non-empty expiration date misses the pattern —
`saveNewPlan` returns invalid, issues no network call, shows a tip
message and marks a field with the error class. -/
theorem saveNewPlan_invalid_no_network (momentFmt : String → String)
    (fs : FormState)
    (h : fs.couponCode.length < 3 ∨ 128 < fs.couponCode.length ∨
      (fs.couponExpiresDate.length ≠ 0 ∧
        matchesDatePattn fs.couponExpiresDate.data = false)) :
    (saveNewPlan momentFmt fs).valid = false ∧
    (saveNewPlan momentFmt fs).networkCalls = [] ∧
    (saveNewPlan momentFmt fs).ui.tip ≠ none ∧
    (saveNewPlan momentFmt fs).ui.errorFields ≠ [] := by
  by_cases hc : fs.couponCode.length > 128 ∨ fs.couponCode.length < 3
  · by_cases hd : fs.couponExpiresDate.length ≠ 0 <;>
      simp [saveNewPlan, andThenCheck, checkLength, checkNumber, checkRegexp,
        numberIsNaN, updateTips, addError, hc, hd]
  · have hdm : fs.couponExpiresDate.length ≠ 0 ∧
        matchesDatePattn fs.couponExpiresDate.data = false := by
      rcases h with h | h | h
      · exact absurd (Or.inr h) hc
      · exact absurd (Or.inl h) hc
      · exact h
    simp [saveNewPlan, andThenCheck, checkLength, checkNumber, checkRegexp,
      numberIsNaN, updateTips, addError, hc, hdm.1, hdm.2]

/-- Closed instance of `saveNewPlan_invalid_no_network` at the length-2
coupon of the claim, with the coupon field concretely marked. -/
theorem saveNewPlan_invalid_no_network_witness :
    ((saveNewPlan id fsShortCoupon).valid = false ∧
      (saveNewPlan id fsShortCoupon).networkCalls = [] ∧
      (saveNewPlan id fsShortCoupon).ui.tip ≠ none ∧
      (saveNewPlan id fsShortCoupon).ui.errorFields ≠ []) ∧
    "coupon_code" ∈ (saveNewPlan id fsShortCoupon).ui.errorFields :=
  ⟨saveNewPlan_invalid_no_network id fsShortCoupon (Or.inl (by decide)),
   by decide⟩

/-! ## URL-helper theorems -/

theorem prefixAt_subset (pat : List Char) :
    ∀ s : List Char, prefixAt pat s = true → ∀ a ∈ pat, a ∈ s := by
  induction pat with
  | nil => simp
  | cons p ps ih =>
    intro s h a ha
    cases s with
    | nil => simp [prefixAt] at h
    | cons c cs =>
      simp only [prefixAt, Bool.and_eq_true, decide_eq_true_eq] at h
      rcases List.mem_cons.mp ha with rfl | ha'
      · simp [h.1]
      · exact List.mem_cons_of_mem _ (ih cs h.2 a ha')

theorem containsSubstr_mem (pat : List Char) :
    ∀ s : List Char, containsSubstr pat s = true → ∀ a ∈ pat, a ∈ s := by
  intro s
  induction s with
  | nil =>
    intro h a ha
    simp only [containsSubstr, List.isEmpty_iff] at h
    subst h
    simp at ha
  | cons c cs ih =>
    intro h a ha
    simp only [containsSubstr, Bool.or_eq_true] at h
    rcases h with h | h
    · exact prefixAt_subset pat (c :: cs) h a ha
    · exact List.mem_cons_of_mem _ (ih h a ha)

theorem jsLastIndexOf_of_not_mem (c : Char) (s : List Char) (h : c ∉ s) :
    jsLastIndexOf c s = -1 := by
  induction s with
  | nil => rfl
  | cons a rest ih =>
    have h1 : c ∉ rest := fun hm => h (List.mem_cons_of_mem _ hm)
    have h2 : ¬a = c := fun he => h (by simp [he])
    simp [jsLastIndexOf, ih h1, h2]

/-- `lastIndexOf` finds the last occurrence: the string splits around an
occurrence of `c` after which `c` never recurs, and the reported index
is the length of the part before it. -/
theorem jsLastIndexOf_spec (c : Char) (s : List Char) (h : c ∈ s) :
    ∃ pre suf : List Char, s = pre ++ c :: suf ∧ c ∉ suf ∧
      jsLastIndexOf c s = (pre.length : Int) := by
  induction s with
  | nil => simp at h
  | cons a rest ih =>
    by_cases hm : c ∈ rest
    · obtain ⟨pre, suf, hsplit, hnot, hidx⟩ := ih hm
      refine ⟨a :: pre, suf, by rw [List.cons_append, hsplit], hnot, ?_⟩
      simp only [jsLastIndexOf, hidx]
      rw [if_pos (Int.natCast_nonneg pre.length)]
      simp only [List.length_cons]
      omega
    · have hc : a = c := by
        rcases List.mem_cons.mp h with he | hm'
        · exact he.symm
        · exact absurd hm' hm
      refine ⟨[], rest, by simp [hc], hm, ?_⟩
      have hneg : jsLastIndexOf c rest = -1 := jsLastIndexOf_of_not_mem c rest hm
      simp [jsLastIndexOf, hneg, hc]

set_option maxRecDepth 8000 in
/-- C9: `getLimitFromUrl` returns the number `0` when the URL does not
contain `"?limit="`; otherwise it returns the substring after the LAST
`'='` of the whole URL — so when another `key=value` pair follows the
limit parameter, the other pair's value is returned instead of the
limit, as on `".../plans?limit=10&offset=20"`, which yields `"20"`. -/
theorem getLimitFromUrl_spec (url : String) :
    (containsSubstr "?limit=".data url.data = false →
      getLimitFromUrl url = LimitResult.num 0) ∧
    (containsSubstr "?limit=".data url.data = true →
      ∃ pre suf : List Char, url.data = pre ++ '=' :: suf ∧ '=' ∉ suf ∧
        getLimitFromUrl url = LimitResult.str (String.mk suf)) ∧
    getLimitFromUrl "https://example.org/plans?limit=10&offset=20" =
      LimitResult.str "20" := by
  refine ⟨?_, ?_, by decide⟩
  · intro h
    simp [getLimitFromUrl, h]
  · intro h
    have hmem : '=' ∈ url.data :=
      containsSubstr_mem "?limit=".data url.data h '=' (by decide)
    obtain ⟨pre, suf, hsplit, hnot, hidx⟩ := jsLastIndexOf_spec '=' url.data hmem
    refine ⟨pre, suf, hsplit, hnot, ?_⟩
    unfold getLimitFromUrl
    rw [if_pos (by simpa using h)]
    congr 1
    unfold jsSliceFrom
    rw [hidx]
    have htn : ((pre.length : Int) + 1).toNat = pre.length + 1 := by omega
    rw [htn, hsplit]
    have hlen : pre.length + 1 = (pre ++ ['=']).length := by simp
    rw [hlen, show pre ++ '=' :: suf = (pre ++ ['=']) ++ suf from by simp,
      List.drop_left]

/-- Closed instances of `getLimitFromUrl_spec`: a URL without the
parameter yields `0`. -/
theorem getLimitFromUrl_spec_witness :
    getLimitFromUrl "https://example.org/plans" = LimitResult.num 0 :=
  (getLimitFromUrl_spec "https://example.org/plans").1 (by decide)

end PlanDialog
